import Mathlib

set_option maxRecDepth 100000

deriving instance DecidableEq for Except

/-!
Verification of the searchnos indexer pipeline (src/indexer/main.rs).

The Rust source is shallowly embedded: pure functions become Lean
functions; the store (Elasticsearch) calls are modelled by explicit
oracle parameters giving each call's outcome, together with a trace of
the store actions the pipeline issues.  Timestamps are integers
(seconds since the Unix epoch); the chrono library's conversions
between timestamps and proleptic-Gregorian UTC calendar dates are
embedded as explicit calendar arithmetic.
-/

namespace Searchnos

/-! ## Event model (nostr-sdk types used by the indexer) -/

/-- Event kinds, mirroring the nostr-sdk variants the source matches on.
Named variants carry their protocol numbers: Metadata = 0, TextNote = 1,
ContactList = 3, EventDeletion = 5, ChannelMetadata = 41,
LongFormTextNote = 30023; `replaceable k` covers kinds 10000..<20000 and
`other k` every remaining kind number. -/
inductive Kind where
  | metadata
  | textNote
  | contactList
  | eventDeletion
  | channelMetadata
  | longFormTextNote
  | replaceable (k : Nat)
  | other (k : Nat)
  deriving DecidableEq, Repr

/-- Protocol number of a kind, as nostr-sdk's Kind::as_u32. -/
def Kind.as_u32 : Kind → Nat
  | .metadata => 0
  | .textNote => 1
  | .contactList => 3
  | .eventDeletion => 5
  | .channelMetadata => 41
  | .longFormTextNote => 30023
  | .replaceable k => k
  | .other k => k

/-- Tags, mirroring nostr-sdk's parsed Tag enum as far as the indexer
inspects it: `event` is Tag::Event (an "e" tag referencing an event id,
with optional relay url and marker); every other tag is kept as its
vector of strings. -/
inductive Tag where
  | event (id : String) (relay : Option String) (marker : Option String)
  | generic (vec : List String)
  deriving DecidableEq, Repr

/-- Tag::as_vec: the tag as the list of strings it was parsed from. -/
def Tag.as_vec : Tag → List String
  | .event id none none => ["e", id]
  | .event id (some r) none => ["e", id, r]
  | .event id none (some m) => ["e", id, "", m]
  | .event id (some r) (some m) => ["e", id, r, m]
  | .generic v => v

/-- A nostr event as the indexer reads it.  `id`, `pubkey` and `sig` are
kept as strings (their hex encodings); `created_at` is in seconds since
the Unix epoch. -/
structure Event where
  id : String
  pubkey : String
  created_at : Int
  kind : Kind
  content : String
  tags : List Tag
  deriving DecidableEq, Repr

/-! ## Calendar arithmetic (embedding chrono's UTC date conversions)

A timestamp's UTC calendar date is obtained from its day number
(floor of seconds / 86400) by proleptic-Gregorian conversion.  Days
are decomposed into 400-year eras of 146097 days anchored at
0000-03-01 (so a shifted year runs March..February and a leap day
falls at its end); the year of era is found by a bounded search over
the 400 years of the era. -/

/-- True iff `y` is a leap year in the proleptic Gregorian calendar. -/
def isLeapYear (y : Int) : Bool :=
  (y % 4 == 0 && y % 100 != 0) || y % 400 == 0

/-- Days of the era strictly before shifted year `y` of the era,
valid for `0 ≤ y ≤ 399` (shifted years run March..February). -/
def daysBeforeYear (y : Int) : Int :=
  365 * y + y / 4 - y / 100

/-- Largest shifted year `≤ n` of the era whose first day is at or
before day-of-era `doe`; the era's year of a day is `yoeFind 399 doe`. -/
def yoeFind : Nat → Int → Nat
  | 0, _ => 0
  | n + 1, doe => if daysBeforeYear (n + 1) ≤ doe then n + 1 else yoeFind n doe

/-- Day-of-shifted-year `doy` (0 = March 1) to month number 1..12,
via the shifted month (5 * doy + 2) / 153. -/
def monthOfDoy (doy : Int) : Int :=
  if (5 * doy + 2) / 153 < 10 then (5 * doy + 2) / 153 + 3
  else (5 * doy + 2) / 153 - 9

/-- Day-of-shifted-year `doy` (0 = March 1) to day-of-month 1..31,
via the shifted month (5 * doy + 2) / 153. -/
def dayOfDoy (doy : Int) : Int :=
  doy - (153 * ((5 * doy + 2) / 153) + 2) / 5 + 1

/-- Day-of-era (0..146096) of the day numbered `z` from the Unix
epoch, eras being 146097-day blocks anchored at 0000-03-01. -/
def doeOfDay (z : Int) : Int :=
  (z + 719468) % 146097

/-- Day-of-shifted-year (0 = March 1) of the day numbered `z` from
the Unix epoch. -/
def doyOfDay (z : Int) : Int :=
  doeOfDay z - daysBeforeYear (yoeFind 399 (doeOfDay z))

/-- Civil (proleptic Gregorian) date `(year, month, day)` of the day
numbered `z` counting from the Unix epoch 1970-01-01. -/
def civilFromDays (z : Int) : Int × Int × Int :=
  let era := (z + 719468) / 146097
  let yoe : Int := yoeFind 399 (doeOfDay z)
  let m := monthOfDoy (doyOfDay z)
  let d := dayOfDoy (doyOfDay z)
  let y := yoe + era * 400
  (if m ≤ 2 then y + 1 else y, m, d)

/-- Day number (from the Unix epoch) of the civil date `(y, m, d)`;
inverse of `civilFromDays` on valid dates. -/
def daysFromCivil (y m d : Int) : Int :=
  let y' := if m ≤ 2 then y - 1 else y
  let era := y' / 400
  let yoe := y' % 400
  let mp := if m ≤ 2 then m + 9 else m - 3
  let doy := (153 * mp + 2) / 5 + d - 1
  era * 146097 + (daysBeforeYear yoe + doy) - 719468

/-- Seconds since the Unix epoch at 00:00:00 UTC of `(y, m, d)`. -/
def dateToSecs (y m d : Int) : Int :=
  daysFromCivil y m d * 86400

/-- Day number (UTC) a timestamp in seconds falls on. -/
def dayOfTs (ts : Int) : Int := ts / 86400

/-- Smallest timestamp chrono can represent as a date-time
(00:00:00 on the minimum date, year -262144). -/
def chronoMinTs : Int := dateToSecs (-262144) 1 1

/-- Largest timestamp chrono can represent as a date-time
(23:59:59 on the maximum date, year 262143). -/
def chronoMaxTs : Int := dateToSecs 262143 12 31 + 86399

/-- True iff chrono's timestamp_opt(ts, 0) yields a valid instant. -/
def validTs (ts : Int) : Bool :=
  chronoMinTs ≤ ts && ts ≤ chronoMaxTs

/-! ## Date formatting and parsing (chrono format "%Y.%m.%d") -/

/-- Decimal digit character for `n < 10`. -/
def digitCh (n : Nat) : Char := Char.ofNat (48 + n)

/-- A value in 0..99 zero-padded to exactly two digits (chrono's
"%m" / "%d" formatting; months and days never exceed two digits). -/
def pad2 (n : Int) : String :=
  ⟨[digitCh (n.toNat / 10), digitCh (n.toNat % 10)]⟩

/-- A year number zero-padded to at least four digits, with a leading
minus sign for negative years (chrono's "%Y" formatting). -/
def yearStr (y : Int) : String :=
  let s := toString y.natAbs
  let p := ⟨List.replicate (4 - s.length) (digitCh 0)⟩ ++ s
  if y < 0 then "-" ++ p else p

/-- The date `(y, m, d)` rendered in the source's DATE_FORMAT
"%Y.%m.%d". -/
def formatDate (y m d : Int) : String :=
  yearStr y ++ "." ++ pad2 m ++ "." ++ pad2 d

/-- Number of days in month `m` of year `y`. -/
def daysInMonth (y m : Int) : Int :=
  if m = 2 then (if isLeapYear y then 29 else 28)
  else if m = 4 ∨ m = 6 ∨ m = 9 ∨ m = 11 then 30
  else 31

/-- Splits a character list at every occurrence of `c`, as Rust's
str::split on a single-character pattern (and Lean's String.splitOn):
"a-b" gives ["a", "b"], "a--b" gives ["a", "", "b"], "" gives [""]. -/
def splitOnCh (c : Char) : List Char → List (List Char)
  | [] => [[]]
  | x :: xs =>
    match splitOnCh c xs, decide (x = c) with
    | r, true => [] :: r
    | [], false => [[x]]
    | h :: t, false => (x :: h) :: t

/-- Parses a string of decimal digits; none on empty or non-digit. -/
def parseNatDigits (s : List Char) : Option Nat :=
  match s with
  | [] => none
  | _ =>
    let step : Option Nat → Char → Option Nat := fun acc c =>
      match acc with
      | none => none
      | some n => if c.isDigit then some (n * 10 + (c.toNat - 48)) else none
    s.foldl step (some 0)

/-- Parses a date string in the format "%Y.%m.%d" (as chrono's
NaiveDate::parse_from_str with the source's DATE_FORMAT), validating
that the components form a real calendar date. -/
def parseDate (s : String) : Option (Int × Int × Int) :=
  match splitOnCh '.' s.data with
  | [ys, ms, ds] =>
    match parseNatDigits ys, parseNatDigits ms, parseNatDigits ds with
    | some y, some m, some d =>
      let y : Int := y
      let m : Int := m
      let d : Int := d
      if 1 ≤ m ∧ m ≤ 12 ∧ 1 ≤ d ∧ d ≤ daysInMonth y m then some (y, m, d)
      else none
    | _, _, _ => none
  | _ => none

/-! ## IndexPartitioner: index_name_for_event and can_exist -/

/-- index_name_for_event from the source: formats the event's
created_at as a UTC date and produces "PREFIX-YYYY.MM.DD"; errors when
chrono cannot interpret the timestamp as a valid instant. -/
def index_name_for_event (pfx : String) (event : Event) : Except String String :=
  if validTs event.created_at then
    let c := civilFromDays (dayOfTs event.created_at)
    .ok (pfx ++ "-" ++ formatDate c.1 c.2.1 c.2.2)
  else
    .error ("failed to parse date: " ++ toString event.created_at)

/-- can_exist from the source: extracts the date suffix of the index
name (the text between the first and second dash), parses it, and
checks that `current_time` minus the date's midnight lies in
[-allow_future_days, ttl_in_days) measured in days (the comparison is
carried out on second-precision durations, a day being 86400
seconds).  A malformed date suffix is an error. -/
def can_exist (index_name : String) (current_time : Int)
    (ttl_in_days : Nat) (allow_future_days : Nat) : Except String Bool :=
  match parseDate ⟨(splitOnCh '-' index_name.data).getD 1 []⟩ with
  | none =>
    .error ("failed to parse date suffix: " ++
      (⟨(splitOnCh '-' index_name.data).getD 1 []⟩ : String))
  | some (y, m, d) =>
    .ok (decide (-((allow_future_days : Int) * 86400) ≤ current_time - dateToSecs y m d ∧
                 current_time - dateToSecs y m d < (ttl_in_days : Int) * 86400))

/-! ## DocumentMapper: convert_tags and extract_text -/

/-- Inserts value `v` into the set of values for key `k`, as the
source's HashMap of HashSets: an existing key keeps its entry (the
value is added unless already present), a new key is appended. -/
def insertTag (m : List (String × List String)) (k v : String) :
    List (String × List String) :=
  match m with
  | [] => [(k, [v])]
  | (k', vs) :: rest =>
    if k' = k then (k', if v ∈ vs then vs else vs ++ [v]) :: rest
    else (k', vs) :: insertTag rest k v

/-- convert_tags from the source: for each tag take its first two
elements (kind and first value); skip tags with fewer than two
elements and tags whose kind is not exactly one byte long (Rust's
str::len is the UTF-8 byte length); collect the kept values into
per-key value sets.  The HashMap of HashSets is represented as an
association list of deduplicated value lists. -/
def convert_tags (tags : List Tag) : List (String × List String) :=
  tags.foldl
    (fun m t =>
      match t.as_vec with
      | tag_kind :: first_tag_value :: _ =>
        if tag_kind.utf8ByteSize ≠ 1 then m
        else insertTag m tag_kind first_tag_value
      | _ => m)
    []

/-- True iff the tag map sends key `k` to a set containing `v`. -/
def hasValue : List (String × List String) → String → String → Bool
  | [], _, _ => false
  | (k0, vs) :: rest, k, v => if k0 = k then vs.contains v else hasValue rest k v

/-- Modelled from the spec for comparison with `convert_tags`: the
same construction but skipping tags whose key is not exactly one
character long, as the spec words it. -/
def convert_tags_chars (tags : List Tag) : List (String × List String) :=
  tags.foldl
    (fun m t =>
      match t.as_vec with
      | tag_kind :: first_tag_value :: _ =>
        if tag_kind.length ≠ 1 then m
        else insertTag m tag_kind first_tag_value
      | _ => m)
    []

/-- Left brace character (the JSON object opener). -/
def lbrace : Char := Char.ofNat 123

/-- Right brace character (the JSON object closer). -/
def rbrace : Char := Char.ofNat 125

/-- Drops leading JSON whitespace. -/
def skipWs : List Char → List Char
  | [] => []
  | c :: rest =>
    if c = ' ' ∨ c = '\t' ∨ c = '\n' ∨ c = Char.ofNat 13 then skipWs rest
    else c :: rest

/-- Value of a hexadecimal digit character. -/
def parseHexDigit (c : Char) : Option Nat :=
  if '0' ≤ c ∧ c ≤ '9' then some (c.toNat - 48)
  else if 'a' ≤ c ∧ c ≤ 'f' then some (c.toNat - 87)
  else if 'A' ≤ c ∧ c ≤ 'F' then some (c.toNat - 55)
  else none

/-- Parses the remainder of a JSON string after its opening quote,
returning its characters and the input after the closing quote.
Escapes are decoded; a \u escape denoting a high surrogate must be
followed by a \u escape denoting a low surrogate and the pair is
combined into one scalar value (as serde_json does), a lone surrogate
is rejected; raw control characters are rejected. -/
def parseStringRest : List Char → Option (List Char × List Char)
  | [] => none
  | '"' :: rest => some ([], rest)
  | '\\' :: 'u' :: h1 :: h2 :: h3 :: h4 :: rest =>
    (match parseHexDigit h1, parseHexDigit h2, parseHexDigit h3, parseHexDigit h4 with
     | some a, some b, some c, some d =>
       let code := ((a * 16 + b) * 16 + c) * 16 + d
       if 0xD800 ≤ code ∧ code < 0xDC00 then
         (match rest with
          | '\\' :: 'u' :: g1 :: g2 :: g3 :: g4 :: rest2 =>
            (match parseHexDigit g1, parseHexDigit g2, parseHexDigit g3, parseHexDigit g4 with
             | some a2, some b2, some c2, some d2 =>
               let lo := ((a2 * 16 + b2) * 16 + c2) * 16 + d2
               if 0xDC00 ≤ lo ∧ lo < 0xE000 then
                 match parseStringRest rest2 with
                 | some (cs, rem) =>
                   some (Char.ofNat (0x10000 + (code - 0xD800) * 0x400 + (lo - 0xDC00)) :: cs,
                     rem)
                 | none => none
               else none
             | _, _, _, _ => none)
          | _ => none)
       else if 0xDC00 ≤ code ∧ code < 0xE000 then none
       else
         match parseStringRest rest with
         | some (cs, rem) => some (Char.ofNat code :: cs, rem)
         | none => none
     | _, _, _, _ => none)
  | '\\' :: c :: rest =>
    (match
       (if c = '"' then some '"'
        else if c = '\\' then some '\\'
        else if c = '/' then some '/'
        else if c = 'b' then some (Char.ofNat 8)
        else if c = 'f' then some (Char.ofNat 12)
        else if c = 'n' then some '\n'
        else if c = 'r' then some (Char.ofNat 13)
        else if c = 't' then some '\t'
        else none : Option Char) with
     | some e =>
       match parseStringRest rest with
       | some (cs, rem) => some (e :: cs, rem)
       | none => none
     | none => none)
  | '\\' :: [] => none
  | c :: rest =>
    if c.toNat < 32 then none
    else
      match parseStringRest rest with
      | some (cs, rem) => some (c :: cs, rem)
      | none => none

/-- Inserts a key-value pair into the map, overwriting the value of an
existing key (as HashMap::insert during serde deserialization). -/
def insertKV (m : List (String × String)) (k v : String) : List (String × String) :=
  match m with
  | [] => [(k, v)]
  | (k', v') :: rest =>
    if k' = k then (k', v) :: rest else (k', v') :: insertKV rest k v

/-- Parses one JSON object member whose key and value are both
strings, returning the pair and the remaining input. -/
def parsePair (s : List Char) : Option ((String × String) × List Char) :=
  match skipWs s with
  | '"' :: rest =>
    (match parseStringRest rest with
     | none => none
     | some (k, rem) =>
       match skipWs rem with
       | ':' :: rem2 =>
         (match skipWs rem2 with
          | '"' :: rem3 =>
            (match parseStringRest rem3 with
             | none => none
             | some (v, rem4) => some ((⟨k⟩, ⟨v⟩), rem4))
          | _ => none)
       | _ => none)
  | _ => none

/-- Parses the members of a JSON object (after the opening brace, at
least one member present), up to and including the closing brace. -/
def parseMembers : Nat → List (String × String) → List Char →
    Option (List (String × String) × List Char)
  | 0, _, _ => none
  | fuel + 1, acc, s =>
    match parsePair s with
    | none => none
    | some ((k, v), rem) =>
      let acc := insertKV acc k v
      match skipWs rem with
      | ',' :: rem2 => parseMembers fuel acc rem2
      | c :: rem2 => if c = rbrace then some (acc, rem2) else none
      | [] => none

/-- Parses an entire string as a flat JSON object mapping strings to
strings (serde_json deserialization into a HashMap of Strings); the
map is represented as an association list in document order, with
duplicate keys overwritten by their last occurrence. -/
def parseFlatMap (s : String) : Option (List (String × String)) :=
  match skipWs s.data with
  | c :: rest =>
    if c = lbrace then
      match skipWs rest with
      | d :: rest2 =>
        if d = rbrace then
          (if (skipWs rest2).isEmpty then some [] else none)
        else
          (match parseMembers (rest.length + 1) [] rest with
           | some (m, rem) => if (skipWs rem).isEmpty then some m else none
           | none => none)
      | [] => none
    else none
  | [] => none

/-- Joins strings with single spaces, as Vec::join(" "). -/
def joinSp : List String → String
  | [] => ""
  | [s] => s
  | s :: rest => s ++ " " ++ joinSp rest

/-- extract_text from the source: text-note and long-form kinds keep
their content verbatim; any other kind has its content parsed as a
flat string-to-string JSON map (a failed parse yielding the empty
map) and the values joined with single spaces in the map's iteration
order.  Rust's HashMap iterates in an unspecified, per-process
randomized order, so that order is an explicit oracle `iter`
reordering the parsed entries; a faithful oracle permutes them. -/
def extract_text (iter : List (String × String) → List (String × String))
    (event : Event) : String :=
  match event.kind with
  | .textNote | .longFormTextNote => event.content
  | _ =>
    match parseFlatMap event.content with
    | none => ""
    | some m => joinSp ((iter m).map (·.2))

/-! ## Classification and the upsert pipeline -/

/-- is_replaceable_event from the source. -/
def is_replaceable_event (event : Event) : Bool :=
  match event.kind with
  | .replaceable _ => true
  | .metadata | .contactList | .channelMetadata => true
  | _ => false

/-- The three pipelines an incoming event can be routed to. -/
inductive Action where
  | upsert
  | delete
  | ignore
  deriving DecidableEq, Repr

/-- The consumer loop's routing of an event kind (the match in main):
Metadata and TextNote go to handle_update, EventDeletion to
handle_deletion_event, and every other kind is skipped. -/
def classify (k : Kind) : Action :=
  match k with
  | .metadata | .textNote => .upsert
  | .eventDeletion => .delete
  | _ => .ignore

/-- Modelled from the spec for comparison with `classify`: the spec's
classification contract, which sends long-form content to Upsert as
well. -/
def classify_spec (k : Kind) : Action :=
  match k with
  | .metadata | .textNote | .longFormTextNote => .upsert
  | .eventDeletion => .delete
  | _ => .ignore

/-- The document stored for an event: the event itself, the extracted
text, and the converted tag index. -/
structure Document where
  event : Event
  text : String
  tags : List (String × List String)
  deriving DecidableEq, Repr

/-- Builds the Document the upsert pipeline stores for an event,
given the HashMap iteration-order oracle used by extract_text. -/
def build_document (iter : List (String × String) → List (String × String))
    (event : Event) : Document :=
  ⟨event, extract_text iter event, convert_tags event.tags⟩

/-- Outcome of a store call that returned a response: just whether the
HTTP status was a success. -/
structure StoreResponse where
  success : Bool
  deriving DecidableEq, Repr

/-- The delete-by-query body issued by the replaceable-event
reconciliation: pubkey term, kind term, and an exclusive upper bound
on created_at. -/
structure ReconcileQuery where
  pubkey : String
  kind : Nat
  createdAtLt : Int
  deriving DecidableEq, Repr

/-- The reconciliation query built from an event in handle_update. -/
def reconcile_query (event : Event) : ReconcileQuery :=
  ⟨event.pubkey, event.kind.as_u32, event.created_at⟩

/-- Whether a stored document matches a reconciliation query: all
three clauses of the bool/must filter must hold. -/
def query_matches (q : ReconcileQuery) (doc : Document) : Bool :=
  doc.event.pubkey == q.pubkey && doc.event.kind.as_u32 == q.kind &&
    doc.event.created_at < q.createdAtLt

/-- Store write operations the upsert pipeline can issue. -/
inductive StoreAction where
  | indexDoc (index : String) (id : String) (doc : Document)
  | deleteByQuery (target : String) (q : ReconcileQuery)
  deriving DecidableEq, Repr

/-- handle_update from the source, with the store abstracted: the
outcome of the step-3 document write and of the step-4 delete-by-query
are inputs (transport failures as error, otherwise the response), and
the store calls issued are returned alongside the function's result.
Follows the source line by line: compute the index name (propagating
its error); evaluate can_exist at the current time with ttl 7 and one
future day, treating its error as false, and skip silently when not
writable; index the document (propagating a transport error, only
logging a non-success response); then, for replaceable events only,
issue the reconciliation delete-by-query against the alias and fail
when it does not succeed. -/
def handle_update (pfx alias_name : String) (event : Event) (now : Int)
    (iter : List (String × String) → List (String × String))
    (indexResp : Except String StoreResponse)
    (dbqResp : Except String StoreResponse) :
    Except String Unit × List StoreAction :=
  match index_name_for_event pfx event with
  | .error e => (.error e, [])
  | .ok index_name =>
    if !((can_exist index_name now 7 1).toOption.getD false) then (.ok (), [])
    else
      match indexResp with
      | .error e =>
        (.error e, [StoreAction.indexDoc index_name event.id (build_document iter event)])
      | .ok _ =>
        if is_replaceable_event event then
          match dbqResp with
          | .error e =>
            (.error e,
             [StoreAction.indexDoc index_name event.id (build_document iter event),
              StoreAction.deleteByQuery alias_name (reconcile_query event)])
          | .ok r2 =>
            if r2.success then
              (.ok (),
               [StoreAction.indexDoc index_name event.id (build_document iter event),
                StoreAction.deleteByQuery alias_name (reconcile_query event)])
            else
              (.error "failed to fetch",
               [StoreAction.indexDoc index_name event.id (build_document iter event),
                StoreAction.deleteByQuery alias_name (reconcile_query event)])
        else
          (.ok (), [StoreAction.indexDoc index_name event.id (build_document iter event)])

/-! ## DeletionAuthorizer: delete_event and handle_deletion_event -/

/-- Errors delete_event can report (each constructor corresponds to
one early return of the source function). -/
inductive DeleteError where
  | transport (e : String)
  | fetchFailed
  | noHitsField
  | notFound (id : String)
  | deserializeFailed
  | unauthorized (claimed : String) (actual : String)
  | deleteFailed
  | noIndexName
  deriving DecidableEq, Repr

/-- One hit of the search response: the deserialization of its
_source.event (none when serde fails) and its _index field (none when
absent or not a string). -/
structure Hit where
  source_event : Option Event
  index : Option String
  deriving DecidableEq, Repr

/-- The search response delete_event inspects: the status, and the
hits.hits array (none when the response body lacks it). -/
structure SearchOutcome where
  success : Bool
  hits : Option (List Hit)
  deriving DecidableEq, Repr

/-- Store delete operations delete_event can issue. -/
inductive DeleteAction where
  | deleteDoc (index : String) (id : String)
  deriving DecidableEq, Repr

/-- delete_event from the source, with the store abstracted: the
outcome of the search against the alias and of the delete-by-id are
inputs, and the delete calls issued are returned alongside the
result.  The stored event's pubkey must equal the claimed author's,
otherwise the function fails without deleting; on a match the one
document is deleted from the specific index reported by the hit. -/
def delete_event (searchResp : Except String SearchOutcome)
    (deleteResp : Except String StoreResponse) (id : String) (pubkey : String) :
    Except DeleteError Unit × List DeleteAction :=
  match searchResp with
  | .error e => (.error (.transport e), [])
  | .ok s =>
    if !s.success then (.error .fetchFailed, [])
    else
      match s.hits with
      | none => (.error .noHitsField, [])
      | some hits =>
        match hits.head? with
        | none => (.error (.notFound id), [])
        | some hit =>
          match hit.source_event with
          | none => (.error .deserializeFailed, [])
          | some event_to_be_deleted =>
            if pubkey ≠ event_to_be_deleted.pubkey then
              (.error (.unauthorized pubkey event_to_be_deleted.pubkey), [])
            else
              match hit.index with
              | none => (.error .noIndexName, [])
              | some index_name =>
                match deleteResp with
                | .error e =>
                  (.error (.transport e), [DeleteAction.deleteDoc index_name id])
                | .ok r =>
                  if !r.success then
                    (.error .deleteFailed, [DeleteAction.deleteDoc index_name id])
                  else (.ok (), [DeleteAction.deleteDoc index_name id])

/-- Ids referenced by the event-reference tags of a tag list, in
order. -/
def eventRefIds (tags : List Tag) : List String :=
  tags.filterMap fun t =>
    match t with
    | .event e _ _ => some e
    | _ => none

/-- One call handle_deletion_event makes to delete_event: the
referenced target id, the claimed author passed, and delete_event's
result together with the store deletions it issued. -/
structure DeletionAttempt where
  target : String
  claimed_author : String
  result : Except DeleteError Unit
  deletions : List DeleteAction
  deriving DecidableEq, Repr

/-- handle_deletion_event from the source, with the store abstracted
into per-id oracles for the search and delete responses delete_event
will see: every event-reference tag is processed in order by calling
delete_event on the referenced id with the deletion event's own
pubkey as the claimed author; a failed delete_event is logged and the
loop continues.  Returns the function's result together with the
trace of attempted calls. -/
def handle_deletion_event (event : Event)
    (searchResp : String → Except String SearchOutcome)
    (deleteResp : String → Except String StoreResponse) :
    Except String Unit × List DeletionAttempt :=
  (.ok (),
   event.tags.foldl
     (fun acc t =>
       match t with
       | .event e _ _ =>
         acc ++ [⟨e, event.pubkey,
           (delete_event (searchResp e) (deleteResp e) e event.pubkey).1,
           (delete_event (searchResp e) (deleteResp e) e event.pubkey).2⟩]
       | _ => acc)
     [])


/-! ## Calendar lemmas -/

theorem daysBeforeYear_zero : daysBeforeYear 0 = 0 := by decide

theorem yoeFind_le (n : Nat) (doe : Int) (h : 0 ≤ doe) :
    daysBeforeYear (yoeFind n doe) ≤ doe := by
  induction n with
  | zero => simpa [yoeFind, daysBeforeYear]
  | succ k ih =>
    unfold yoeFind
    split
    · assumption
    · exact ih

theorem yoeFind_ge (n : Nat) (doe : Int) (y : Nat) (hy : y ≤ n)
    (hle : daysBeforeYear y ≤ doe) : y ≤ yoeFind n doe := by
  induction n with
  | zero => omega
  | succ k ih =>
    unfold yoeFind
    split
    · omega
    · rcases Nat.eq_or_lt_of_le hy with h | h
      · subst h; push_cast at *; omega
      · exact ih (by omega)

theorem yoeFind_le_n (n : Nat) (doe : Int) : yoeFind n doe ≤ n := by
  induction n with
  | zero => simp [yoeFind]
  | succ k ih =>
    unfold yoeFind
    split
    · omega
    · omega

theorem daysBeforeYear_step (y : Int) :
    daysBeforeYear y + 365 ≤ daysBeforeYear (y + 1) ∧
    daysBeforeYear (y + 1) ≤ daysBeforeYear y + 366 := by
  unfold daysBeforeYear; omega

theorem daysBeforeYear_add (a : Nat) (k : Nat) :
    daysBeforeYear a + 365 * k ≤ daysBeforeYear (a + k) := by
  induction k with
  | zero => simp
  | succ j ih =>
    have h := daysBeforeYear_step ((a : Int) + j)
    have e : ((a : Int) + ((j : Int) + 1)) = ((a : Int) + (j : Int)) + 1 := by ring
    push_cast at ih ⊢
    rw [e]
    omega

theorem doeOfDay_bounds (z : Int) : 0 ≤ doeOfDay z ∧ doeOfDay z ≤ 146096 := by
  unfold doeOfDay; omega

theorem doeOfDay_succ (z : Int) :
    (doeOfDay (z + 1) = doeOfDay z + 1 ∧ doeOfDay z ≤ 146095) ∨
    (doeOfDay z = 146096 ∧ doeOfDay (z + 1) = 0) := by
  unfold doeOfDay; omega

theorem doyOfDay_bounds (z : Int) : 0 ≤ doyOfDay z ∧ doyOfDay z ≤ 365 := by
  obtain ⟨h1, h2⟩ := doeOfDay_bounds z
  unfold doyOfDay
  constructor
  · have := yoeFind_le 399 (doeOfDay z) h1
    omega
  · set doe := doeOfDay z with hdoe
    set yoe := yoeFind 399 doe with hyoe
    by_cases hc : yoe = 399
    · rw [hc]
      have : daysBeforeYear (((399 : Nat) : Int)) = 145731 := by decide
      omega
    · have hlt : yoe + 1 ≤ 399 := by
        have := yoeFind_le_n 399 doe
        omega
      have hmax : ¬ daysBeforeYear ((yoe : Int) + 1) ≤ doe := by
        intro hle
        have := yoeFind_ge 399 doe (yoe + 1) hlt (by exact_mod_cast hle)
        omega
      have := (daysBeforeYear_step (yoe : Int)).2
      omega

theorem doyOfDay_succ (z : Int) :
    doyOfDay (z + 1) = doyOfDay z + 1 ∨
    (doyOfDay (z + 1) = 0 ∧ 364 ≤ doyOfDay z) := by
  obtain ⟨hb1, hb2⟩ := doeOfDay_bounds z
  obtain ⟨hb1s, hb2s⟩ := doeOfDay_bounds (z + 1)
  rcases doeOfDay_succ z with ⟨hstep, hlt⟩ | ⟨htop, hzero⟩
  · set doe := doeOfDay z with hdoe
    set yoe1 := yoeFind 399 doe with hyoe1
    set yoe2 := yoeFind 399 (doe + 1) with hyoe2
    have h399_1 : yoe1 ≤ 399 := yoeFind_le_n 399 doe
    have h399_2 : yoe2 ≤ 399 := yoeFind_le_n 399 (doe + 1)
    have hle1 : daysBeforeYear (yoe1 : Int) ≤ doe := yoeFind_le 399 doe hb1
    have hle2 : daysBeforeYear (yoe2 : Int) ≤ doe + 1 := yoeFind_le 399 (doe + 1) (by omega)
    have hmono : yoe1 ≤ yoe2 := yoeFind_ge 399 (doe + 1) yoe1 h399_1 (by omega)
    have hup : yoe2 ≤ yoe1 + 1 := by
      by_contra hcon
      push_neg at hcon
      have hk : yoe1 + 2 ≤ yoe2 := by omega
      have hadd := daysBeforeYear_add yoe1 (yoe2 - yoe1)
      have hcast : ((yoe1 : Int) + ((yoe2 - yoe1 : Nat) : Int)) = (yoe2 : Int) := by
        omega
      rw [hcast] at hadd
      have hdm : doyOfDay z ≤ 365 := (doyOfDay_bounds z).2
      unfold doyOfDay at hdm
      rw [← hdoe, ← hyoe1] at hdm
      have : (365 : Int) * ((yoe2 - yoe1 : Nat) : Int) ≥ 365 * 2 := by
        have : ((yoe2 - yoe1 : Nat) : Int) ≥ 2 := by omega
        nlinarith
      omega
    unfold doyOfDay
    rw [← hdoe, hstep, ← hyoe1, ← hyoe2]
    rcases Nat.eq_or_lt_of_le hmono with heq | hlt2
    · rw [heq]; left; omega
    · have heq2 : yoe2 = yoe1 + 1 := by omega
      have hnle : ¬ daysBeforeYear ((yoe1 : Int) + 1) ≤ doe := by
        intro hle
        have h1le : yoe1 + 1 ≤ 399 := by omega
        have := yoeFind_ge 399 doe (yoe1 + 1) h1le (by exact_mod_cast hle)
        omega
      have hy2c : ((yoe2 : Nat) : Int) = ((yoe1 : Nat) : Int) + 1 := by
        exact_mod_cast heq2
      have hstep365 := (daysBeforeYear_step (yoe1 : Int)).1
      rw [hy2c] at hle2
      right
      rw [hy2c]
      omega
  · set doe := doeOfDay z with hdoe
    have hyoe1 : yoeFind 399 doe = 399 := by
      have hge := yoeFind_ge 399 doe 399 (le_refl _)
        (by rw [htop]; decide)
      have := yoeFind_le_n 399 doe
      omega
    have hyoe2 : yoeFind 399 (doeOfDay (z + 1)) = 0 := by
      rw [hzero]
      by_contra hcon
      have hpos : 1 ≤ yoeFind 399 (0 : Int) := by omega
      have hle := yoeFind_le 399 (0 : Int) (by omega)
      have hadd := daysBeforeYear_add 0 (yoeFind 399 (0 : Int))
      simp [daysBeforeYear_zero] at hadd
      have : ((yoeFind 399 (0 : Int) : Nat) : Int) ≥ 1 := by omega
      nlinarith
    right
    unfold doyOfDay
    constructor
    · rw [hyoe2, hzero]
      simpa using daysBeforeYear_zero
    · rw [← hdoe, hyoe1, htop]
      have : daysBeforeYear (((399 : Nat) : Int)) = 145731 := by decide
      omega

theorem monthOfDoy_range (doy : Int) (h1 : 0 ≤ doy) (h2 : doy ≤ 365) :
    1 ≤ monthOfDoy doy ∧ monthOfDoy doy ≤ 12 := by
  unfold monthOfDoy
  split <;> omega

theorem dayOfDoy_range (doy : Int) :
    1 ≤ dayOfDoy doy ∧ dayOfDoy doy ≤ 31 := by
  unfold dayOfDoy
  omega

theorem doy_succ_distinct (doy : Int) :
    ¬ (monthOfDoy (doy + 1) = monthOfDoy doy ∧ dayOfDoy (doy + 1) = dayOfDoy doy) := by
  unfold monthOfDoy dayOfDoy
  split <;> split <;> omega

theorem month_end (doy : Int) (h : 364 ≤ doy) (h2 : doy ≤ 365) : monthOfDoy doy = 2 := by
  unfold monthOfDoy
  omega

theorem month_zero : monthOfDoy 0 = 3 := by decide

theorem civil_md_distinct_succ (z : Int) :
    ¬ ((civilFromDays (z + 1)).2.1 = (civilFromDays z).2.1 ∧
       (civilFromDays (z + 1)).2.2 = (civilFromDays z).2.2) := by
  have hb := doyOfDay_bounds z
  have hbs := doyOfDay_bounds (z + 1)
  show ¬ (monthOfDoy (doyOfDay (z + 1)) = monthOfDoy (doyOfDay z) ∧
          dayOfDoy (doyOfDay (z + 1)) = dayOfDoy (doyOfDay z))
  rcases doyOfDay_succ z with hstep | ⟨hzero, hend⟩
  · rw [hstep]
    exact doy_succ_distinct (doyOfDay z)
  · rw [hzero, month_zero, month_end (doyOfDay z) hend hb.2]
    intro hc
    omega

theorem civil_month_range (z : Int) :
    1 ≤ (civilFromDays z).2.1 ∧ (civilFromDays z).2.1 ≤ 12 := by
  have hb := doyOfDay_bounds z
  show 1 ≤ monthOfDoy (doyOfDay z) ∧ monthOfDoy (doyOfDay z) ≤ 12
  exact monthOfDoy_range _ hb.1 hb.2

theorem civil_day_range (z : Int) :
    1 ≤ (civilFromDays z).2.2 ∧ (civilFromDays z).2.2 ≤ 31 := by
  have hb := doyOfDay_bounds z
  show 1 ≤ dayOfDoy (doyOfDay z) ∧ dayOfDoy (doyOfDay z) ≤ 31
  exact dayOfDoy_range _


/-! ## Injectivity of the formatted month and day -/

theorem String.eq_of_data_eq (s t : String) (h : s.data = t.data) : s = t := by
  cases s; cases t; congr

theorem digitCh_inj : ∀ a : Nat, a < 10 → ∀ b : Nat, b < 10 →
    digitCh a = digitCh b → a = b := by decide

theorem pad2_data (n : Int) :
    (pad2 n).data = [digitCh (n.toNat / 10), digitCh (n.toNat % 10)] := rfl

theorem pad2_inj (a b : Int) (ha1 : 0 ≤ a) (ha2 : a ≤ 99) (hb1 : 0 ≤ b)
    (hb2 : b ≤ 99) (h : pad2 a = pad2 b) : a = b := by
  have hd := congrArg String.data h
  rw [pad2_data, pad2_data] at hd
  simp only [List.cons.injEq, and_true] at hd
  have h1 := digitCh_inj (a.toNat / 10) (by omega) (b.toNat / 10) (by omega) hd.1
  have h2 := digitCh_inj (a.toNat % 10) (by omega) (b.toNat % 10) (by omega) hd.2
  omega

theorem formatDate_data (y m d : Int) :
    (formatDate y m d).data =
      (yearStr y).data ++
        ('.' :: digitCh (m.toNat / 10) :: digitCh (m.toNat % 10) ::
         '.' :: digitCh (d.toNat / 10) :: [digitCh (d.toNat % 10)]) := by
  show (yearStr y ++ "." ++ pad2 m ++ "." ++ pad2 d).data = _
  simp [String.data_append, pad2_data]

theorem formatDate_md_inj (y1 m1 d1 y2 m2 d2 : Int)
    (hm1a : 0 ≤ m1) (hm1b : m1 ≤ 99) (hd1a : 0 ≤ d1) (hd1b : d1 ≤ 99)
    (hm2a : 0 ≤ m2) (hm2b : m2 ≤ 99) (hd2a : 0 ≤ d2) (hd2b : d2 ≤ 99)
    (h : formatDate y1 m1 d1 = formatDate y2 m2 d2) : m1 = m2 ∧ d1 = d2 := by
  have hd := congrArg String.data h
  rw [formatDate_data, formatDate_data] at hd
  have hsplit := List.append_inj' hd rfl
  have htail := hsplit.2
  simp only [List.cons.injEq, and_true] at htail
  have e1 := digitCh_inj (m1.toNat / 10) (by omega) (m2.toNat / 10) (by omega) htail.2.1
  have e2 := digitCh_inj (m1.toNat % 10) (by omega) (m2.toNat % 10) (by omega) htail.2.2.1
  have e3 := digitCh_inj (d1.toNat / 10) (by omega) (d2.toNat / 10) (by omega) htail.2.2.2.2.1
  have e4 := digitCh_inj (d1.toNat % 10) (by omega) (d2.toNat % 10) (by omega) htail.2.2.2.2.2
  omega

theorem prefixed_inj (pfx s1 s2 : String)
    (h : pfx ++ "-" ++ s1 = pfx ++ "-" ++ s2) : s1 = s2 := by
  have hd := congrArg String.data h
  simp only [String.data_append, List.append_assoc] at hd
  have hcancel := List.append_cancel_left hd
  have : s1.data = s2.data := by simpa using hcancel
  exact String.eq_of_data_eq _ _ this


/-! ## Claims about the IndexPartitioner -/

/-- C1: for every index name with a valid date suffix, every now, every
ttl_days and every allow_future_days, can_exist returns true iff
-allow_future_days <= now - (date at 00:00 UTC) < ttl_days, with the
bounds in days (86400 seconds each), the lower bound inclusive and the
upper bound exclusive; at now = 2023-03-20T00:00:00Z with ttl 2 and one
future day, the partitions dated 2023.03.22 and 2023.03.18 are not
writable and those dated 2023.03.21, 2023.03.20 and 2023.03.19 are. -/
theorem can_exist_retention_window :
    (∀ (index_name : String) (now : Int) (ttl fut : Nat) (y m d : Int),
        parseDate ⟨(splitOnCh '-' index_name.data).getD 1 []⟩ = some (y, m, d) →
        (can_exist index_name now ttl fut = .ok true ↔
          (-((fut : Int) * 86400) ≤ now - dateToSecs y m d ∧
           now - dateToSecs y m d < (ttl : Int) * 86400))) ∧
    can_exist "nostr-2023.03.22" 1679270400 2 1 = .ok false ∧
    can_exist "nostr-2023.03.21" 1679270400 2 1 = .ok true ∧
    can_exist "nostr-2023.03.20" 1679270400 2 1 = .ok true ∧
    can_exist "nostr-2023.03.19" 1679270400 2 1 = .ok true ∧
    can_exist "nostr-2023.03.18" 1679270400 2 1 = .ok false := by
  refine ⟨?_, by decide, by decide, by decide, by decide, by decide⟩
  intro index_name now ttl fut y m d hparse
  unfold can_exist
  rw [hparse]
  simp [decide_eq_true_eq]

/-- Witness for C1: the general equivalence evaluated at the index
name nostr-2023.03.20, now = 2023-03-20T00:00:00Z, ttl 7, one future
day. -/
theorem can_exist_retention_window_witness :
    parseDate ⟨(splitOnCh '-' ("nostr-2023.03.20" : String).data).getD 1 []⟩ =
        some (2023, 3, 20) ∧
    (can_exist "nostr-2023.03.20" 1679270400 7 1 = .ok true ↔
      (-(((1 : Nat) : Int) * 86400) ≤ 1679270400 - dateToSecs 2023 3 20 ∧
       1679270400 - dateToSecs 2023 3 20 < ((7 : Nat) : Int) * 86400)) :=
  ⟨by decide,
   can_exist_retention_window.1 "nostr-2023.03.20" 1679270400 7 1 2023 3 20 (by decide)⟩

/-- C9: index_name_for_event is a deterministic pure function of the
prefix and created_at; events on the same UTC day map to the same
partition name; events one second apart on opposite sides of midnight
UTC map to different partition names; and it errors exactly when the
timestamp is not interpretable as a valid instant. -/
theorem index_name_for_event_partitioning :
    (∀ (pfx : String) (e1 e2 : Event), e1.created_at = e2.created_at →
        index_name_for_event pfx e1 = index_name_for_event pfx e2) ∧
    (∀ (pfx : String) (e1 e2 : Event),
        validTs e1.created_at = true → validTs e2.created_at = true →
        dayOfTs e1.created_at = dayOfTs e2.created_at →
        index_name_for_event pfx e1 = index_name_for_event pfx e2) ∧
    (∀ (pfx : String) (e1 e2 : Event),
        validTs e1.created_at = true → validTs e2.created_at = true →
        e2.created_at = e1.created_at + 1 →
        dayOfTs e2.created_at ≠ dayOfTs e1.created_at →
        index_name_for_event pfx e1 ≠ index_name_for_event pfx e2) ∧
    (∀ (pfx : String) (e : Event),
        (index_name_for_event pfx e).isOk = validTs e.created_at) := by
  refine ⟨?_, ?_, ?_, ?_⟩
  · intro pfx e1 e2 h
    unfold index_name_for_event
    rw [h]
  · intro pfx e1 e2 hv1 hv2 hday
    unfold index_name_for_event
    rw [hv1, hv2, hday]
    simp
  · intro pfx e1 e2 hv1 hv2 hstep hne hcontra
    unfold index_name_for_event at hcontra
    rw [hv1, hv2] at hcontra
    simp only [if_true] at hcontra
    have hnames : pfx ++ "-" ++
        formatDate (civilFromDays (dayOfTs e1.created_at)).1
          (civilFromDays (dayOfTs e1.created_at)).2.1
          (civilFromDays (dayOfTs e1.created_at)).2.2 =
      pfx ++ "-" ++
        formatDate (civilFromDays (dayOfTs e2.created_at)).1
          (civilFromDays (dayOfTs e2.created_at)).2.1
          (civilFromDays (dayOfTs e2.created_at)).2.2 := by
      simpa using hcontra
    have hfmt := prefixed_inj _ _ _ hnames
    have hz2 : dayOfTs e2.created_at = dayOfTs e1.created_at + 1 := by
      rw [hstep] at hne ⊢
      unfold dayOfTs at hne ⊢
      omega
    rw [hz2] at hfmt
    have hm1 := civil_month_range (dayOfTs e1.created_at)
    have hd1 := civil_day_range (dayOfTs e1.created_at)
    have hm2 := civil_month_range (dayOfTs e1.created_at + 1)
    have hd2 := civil_day_range (dayOfTs e1.created_at + 1)
    have hmd := formatDate_md_inj _ _ _ _ _ _
      (by omega) (by omega) (by omega) (by omega)
      (by omega) (by omega) (by omega) (by omega) hfmt
    exact civil_md_distinct_succ (dayOfTs e1.created_at) ⟨hmd.1.symm, hmd.2.symm⟩
  · intro pfx e
    unfold index_name_for_event
    by_cases hv : validTs e.created_at
    · rw [hv]
      simp [Except.isOk, Except.toBool]
    · simp only [Bool.not_eq_true] at hv
      rw [hv]
      simp [Except.isOk, Except.toBool]

/-- Witness for C9: the same-day conjunct at two timestamps of
2023-03-20 twelve hours apart, the midnight conjunct at the second
pair 2023-03-19T23:59:59Z and 2023-03-20T00:00:00Z, the determinism
conjunct and the error conjunct at concrete events. -/
theorem index_name_for_event_partitioning_witness :
    index_name_for_event "nostr" ⟨"a", "p", 1679270400, .textNote, "", []⟩ =
        index_name_for_event "nostr" ⟨"b", "q", 1679313600, .metadata, "x", []⟩ ∧
    index_name_for_event "nostr" ⟨"a", "p", 1679270399, .textNote, "", []⟩ ≠
        index_name_for_event "nostr" ⟨"b", "q", 1679270400, .textNote, "", []⟩ ∧
    (index_name_for_event "nostr" ⟨"a", "p", 0, .textNote, "", []⟩).isOk =
        validTs (0 : Int) :=
  ⟨index_name_for_event_partitioning.2.1 "nostr" _ _ (by decide) (by decide) (by decide),
   index_name_for_event_partitioning.2.2.1 "nostr" _ _ (by decide) (by decide)
     (by decide) (by decide),
   index_name_for_event_partitioning.2.2.2 "nostr" _⟩


/-! ## Claims about classification and the DocumentMapper -/

/-- C2 counterexample: the consumer loop routes long-form text content
to Ignore, not to Upsert as the spec's classification contract states;
in particular classify and the spec's classify disagree at
LongFormTextNote. -/
theorem classify_longform_counterexample :
    classify Kind.longFormTextNote = Action.ignore ∧
    classify_spec Kind.longFormTextNote = Action.upsert ∧
    ¬ (∀ k : Kind, classify k = classify_spec k) :=
  ⟨rfl, rfl, fun h => absurd (h Kind.longFormTextNote) (by decide)⟩

/-- C2 (amended): the consumer loop routes profile-metadata and plain
text-content kinds to the Upsert pipeline and the deletion-request
kind to the Delete pipeline, and every other kind — long-form text
content included — to Ignore. -/
theorem classify_routes :
    (∀ k : Kind, classify k = Action.upsert ↔ (k = .metadata ∨ k = .textNote)) ∧
    (∀ k : Kind, classify k = Action.delete ↔ k = .eventDeletion) ∧
    (∀ k : Kind, classify k = Action.ignore ↔
      (k ≠ .metadata ∧ k ≠ .textNote ∧ k ≠ .eventDeletion)) ∧
    classify Kind.longFormTextNote = Action.ignore := by
  refine ⟨?_, ?_, ?_, rfl⟩ <;> intro k <;> cases k <;> simp [classify]


/-- A list contains an element exactly when the element is a member. -/
theorem contains_true_iff (vs : List String) (v : String) :
    vs.contains v = true ↔ v ∈ vs := by simp

/-- Inserting into the tag map adds exactly the pair `(k, v)` to the
mapping relation. -/
theorem hasValue_insertTag (m : List (String × List String)) (k v k' v' : String) :
    hasValue (insertTag m k v) k' v' = true ↔
      (hasValue m k' v' = true ∨ (k' = k ∧ v' = v)) := by
  induction m with
  | nil =>
    simp only [insertTag, hasValue]
    by_cases hk : k = k'
    · subst hk
      rw [if_pos rfl]
      rw [contains_true_iff]
      simp [List.mem_singleton]
    · have hk' : ¬ (k' = k) := fun h => hk h.symm
      rw [if_neg hk]
      simp [hk']
  | cons hd tl ih =>
    obtain ⟨k0, vs⟩ := hd
    by_cases hk0 : k0 = k
    · subst hk0
      simp only [insertTag, if_pos rfl, hasValue]
      by_cases hk' : k0 = k'
      · subst hk'
        rw [if_pos rfl, if_pos rfl]
        by_cases hv : v ∈ vs
        · rw [if_pos hv]
          constructor
          · intro h
            exact Or.inl h
          · rintro (h | ⟨-, hv'⟩)
            · exact h
            · subst hv'
              exact contains_true_iff vs v' |>.2 hv
        · rw [if_neg hv]
          rw [contains_true_iff, contains_true_iff]
          simp [List.mem_append, List.mem_singleton]
      · rw [if_neg hk', if_neg hk']
        have hne : ¬ (k' = k0) := fun h => hk' h.symm
        simp [hne]
    · simp only [insertTag, if_neg hk0, hasValue]
      by_cases hk' : k0 = k'
      · rw [if_pos hk', if_pos hk']
        have hne : ¬ (k' = k) := fun h => hk0 (hk'.trans h)
        simp [hne]
      · rw [if_neg hk', if_neg hk']
        exact ih

/-- The mapping relation of the convert_tags fold: a pair is in the
final map iff it was in the accumulator or contributed by a qualifying
tag of the list. -/
theorem hasValue_convert_fold (tags : List Tag) (m : List (String × List String))
    (k v : String) :
    hasValue (tags.foldl
      (fun m t =>
        match t.as_vec with
        | tag_kind :: first_tag_value :: _ =>
          if tag_kind.utf8ByteSize ≠ 1 then m
          else insertTag m tag_kind first_tag_value
        | _ => m)
      m) k v = true ↔
      (hasValue m k v = true ∨
        (k.utf8ByteSize = 1 ∧ ∃ t ∈ tags, ∃ rest, t.as_vec = k :: v :: rest)) := by
  induction tags generalizing m with
  | nil => simp
  | cons t ts ih =>
    rw [List.foldl_cons, ih]
    rcases hvec : t.as_vec with _ | ⟨k0, _ | ⟨v0, rest0⟩⟩
    · simp only [hvec]
      constructor
      · rintro (h | h)
        · exact Or.inl h
        · exact Or.inr ⟨h.1, h.2.elim fun t' ht' => ⟨t', List.mem_cons_of_mem _ ht'.1, ht'.2⟩⟩
      · rintro (h | ⟨hb, t', ht', rest, hvec'⟩)
        · exact Or.inl h
        · rcases List.mem_cons.1 ht' with he | he
          · subst he; rw [hvec] at hvec'; cases hvec'
          · exact Or.inr ⟨hb, t', he, rest, hvec'⟩
    · simp only [hvec]
      constructor
      · rintro (h | h)
        · exact Or.inl h
        · exact Or.inr ⟨h.1, h.2.elim fun t' ht' => ⟨t', List.mem_cons_of_mem _ ht'.1, ht'.2⟩⟩
      · rintro (h | ⟨hb, t', ht', rest, hvec'⟩)
        · exact Or.inl h
        · rcases List.mem_cons.1 ht' with he | he
          · subst he; rw [hvec] at hvec'; cases hvec'
          · exact Or.inr ⟨hb, t', he, rest, hvec'⟩
    · simp only [hvec]
      by_cases hb0 : k0.utf8ByteSize = 1
      · simp only [hb0, ne_eq, not_true_eq_false, if_false, hasValue_insertTag]
        constructor
        · rintro ((h | ⟨hk, hv⟩) | h)
          · exact Or.inl h
          · subst hk; subst hv
            exact Or.inr ⟨hb0, t, List.mem_cons_self _ _, rest0, hvec⟩
          · exact Or.inr ⟨h.1, h.2.elim fun t' ht' => ⟨t', List.mem_cons_of_mem _ ht'.1, ht'.2⟩⟩
        · rintro (h | ⟨hb, t', ht', rest, hvec'⟩)
          · exact Or.inl (Or.inl h)
          · rcases List.mem_cons.1 ht' with he | he
            · subst he; rw [hvec] at hvec'
              cases hvec'
              exact Or.inl (Or.inr ⟨rfl, rfl⟩)
            · exact Or.inr ⟨hb, t', he, rest, hvec'⟩
      · simp only [hb0, ne_eq, not_false_eq_true, if_true]
        constructor
        · rintro (h | h)
          · exact Or.inl h
          · exact Or.inr ⟨h.1, h.2.elim fun t' ht' => ⟨t', List.mem_cons_of_mem _ ht'.1, ht'.2⟩⟩
        · rintro (h | ⟨hb, t', ht', rest, hvec'⟩)
          · exact Or.inl h
          · rcases List.mem_cons.1 ht' with he | he
            · subst he; rw [hvec] at hvec'
              cases hvec'
              exact absurd hb hb0
            · exact Or.inr ⟨hb, t', he, rest, hvec'⟩

/-- C5 counterexample: convert_tags skips by byte length, not by
character length: the tag with the two-byte single-character key é is
dropped by the source but kept by the spec's character-length rule. -/
theorem convert_tags_charlen_counterexample :
    convert_tags [Tag.generic ["é", "x"]] = [] ∧
    convert_tags_chars [Tag.generic ["é", "x"]] = [("é", ["x"])] ∧
    ¬ (∀ tags : List Tag, convert_tags tags = convert_tags_chars tags) :=
  ⟨by decide, by decide,
   fun h => absurd (h [Tag.generic ["é", "x"]]) (by decide)⟩

/-- C5 (amended): convert_tags skips every tag with fewer than two
elements and every tag whose key is not exactly one byte long, keeps
only the first value of each qualifying tag, and collapses duplicate
values for the same key into one set entry; the mapping relation is
characterized exactly, and the spec's example evaluates as stated. -/
theorem convert_tags_spec_amended :
    (∀ (tags : List Tag) (k v : String),
        hasValue (convert_tags tags) k v = true ↔
          (k.utf8ByteSize = 1 ∧ ∃ t ∈ tags, ∃ rest, t.as_vec = k :: v :: rest)) ∧
    convert_tags [Tag.generic ["e", "abc"], Tag.generic ["e", "abc"],
      Tag.generic ["encoding", "x"]] = [("e", ["abc"])] := by
  constructor
  · intro tags k v
    unfold convert_tags
    rw [hasValue_convert_fold]
    simp [hasValue]
  · decide
/-- A permutation of a two-element list is that list or its reversal. -/
theorem perm_pair {α : Type} (l : List α) (a b : α)
    (h : List.Perm l [a, b]) : l = [a, b] ∨ l = [b, a] := by
  have hlen : l.length = 2 := h.length_eq
  rcases l with _ | ⟨x, _ | ⟨y, _ | ⟨z, t⟩⟩⟩ <;> simp at hlen
  have hx : x ∈ [a, b] := h.subset (List.mem_cons_self x [y])
  have hymem : y ∈ [a, b] := h.subset (List.mem_cons_of_mem x (List.mem_cons_self y []))
  simp only [List.mem_cons, List.not_mem_nil, or_false] at hx hymem
  rcases hx with hxa | hxb
  · subst hxa
    have h2 : List.Perm [y] [b] := h.cons_inv
    have : y = b := by simpa [List.perm_singleton] using h2
    subst this
    exact Or.inl rfl
  · subst hxb
    rcases hymem with hya | hyx
    · subst hya
      exact Or.inr rfl
    · subst hyx
      have hmem : a ∈ [y, y] := h.symm.subset (List.mem_cons_self a [y])
      simp only [List.mem_cons, List.not_mem_nil, or_false, or_self] at hmem
      subst hmem
      exact Or.inl rfl

/-- C6 counterexample: the iteration order of the deserialized Rust
HashMap is unspecified, and under the reversed order — a permutation
of the parsed entries, hence a possible HashMap order — the profile
content with fields name alice and about bio is joined as
"bio alice", not "alice bio" as the claim's example asserts. -/
theorem extract_text_order_counterexample :
    extract_text List.reverse
        ⟨"i", "p", 0, .metadata, "\x7b\"name\":\"alice\",\"about\":\"bio\"\x7d", []⟩ =
      "bio alice" ∧
    List.Perm
      (List.reverse [(("name" : String), ("alice" : String)), ("about", "bio")])
      [("name", "alice"), ("about", "bio")] ∧
    ("bio alice" : String) ≠ "alice bio" :=
  ⟨by decide, List.reverse_perm _, by decide⟩

/-- C6 (amended): extract_text returns the content verbatim for plain
and long-form text notes; for every other kind it parses the content
as a flat string-to-string JSON map and joins the values with single
spaces in the map's iteration order, which is unspecified for the
Rust HashMap: under any order that permutes the entries, the profile
example yields "alice bio" or "bio alice"; and when the parse fails
it returns the empty string and never an error. -/
theorem extract_text_spec_amended :
    (∀ (iter : List (String × String) → List (String × String)) (e : Event),
        (e.kind = .textNote ∨ e.kind = .longFormTextNote) →
        extract_text iter e = e.content) ∧
    (∀ (iter : List (String × String) → List (String × String)) (e : Event),
        e.kind ≠ .textNote → e.kind ≠ .longFormTextNote →
        parseFlatMap e.content = none → extract_text iter e = "") ∧
    (∀ (iter : List (String × String) → List (String × String)) (e : Event),
        e.kind ≠ .textNote → e.kind ≠ .longFormTextNote →
        ∀ m, parseFlatMap e.content = some m →
          extract_text iter e = joinSp ((iter m).map (·.2))) ∧
    (∀ (iter : List (String × String) → List (String × String)),
        (∀ m : List (String × String), List.Perm (iter m) m) →
        extract_text iter ⟨"i", "p", 0, .metadata,
            "\x7b\"name\":\"alice\",\"about\":\"bio\"\x7d", []⟩ = "alice bio" ∨
        extract_text iter ⟨"i", "p", 0, .metadata,
            "\x7b\"name\":\"alice\",\"about\":\"bio\"\x7d", []⟩ = "bio alice") := by
  have h3 : ∀ (iter : List (String × String) → List (String × String)) (e : Event),
      e.kind ≠ .textNote → e.kind ≠ .longFormTextNote →
      ∀ m, parseFlatMap e.content = some m →
        extract_text iter e = joinSp ((iter m).map (·.2)) := by
    rintro iter ⟨id, pk, ca, k, c, tg⟩ h1 h2 m hp
    dsimp at h1 h2
    cases k <;> simp_all [extract_text]
  refine ⟨?_, ?_, h3, ?_⟩
  · rintro iter ⟨id, pk, ca, k, c, tg⟩ (h | h) <;> (dsimp at h; subst h; rfl)
  · rintro iter ⟨id, pk, ca, k, c, tg⟩ h1 h2 hp
    dsimp at h1 h2
    cases k <;> simp_all [extract_text]
  · intro iter hperm
    have hp : parseFlatMap "\x7b\"name\":\"alice\",\"about\":\"bio\"\x7d" =
        some [("name", "alice"), ("about", "bio")] := by decide
    have he := h3 iter
      ⟨"i", "p", 0, .metadata, "\x7b\"name\":\"alice\",\"about\":\"bio\"\x7d", []⟩
      (by decide) (by decide) [("name", "alice"), ("about", "bio")] hp
    rcases perm_pair (iter [("name", "alice"), ("about", "bio")]) _ _
        (hperm [("name", "alice"), ("about", "bio")]) with hh | hh
    · left
      rw [he, hh]
      decide
    · right
      rw [he, hh]
      decide

/-- Witness for C6 (amended): the verbatim conjunct at a concrete text
note, the absorbed-failure conjunct at a concrete profile event with
malformed content, and the example conjunct under the identity
iteration order. -/
theorem extract_text_spec_amended_witness :
    extract_text (fun m => m) ⟨"i", "p", 0, .textNote, "hello world", []⟩ =
      "hello world" ∧
    extract_text (fun m => m) ⟨"i", "p", 0, .metadata, "garbage", []⟩ = "" ∧
    (extract_text (fun m => m) ⟨"i", "p", 0, .metadata,
        "\x7b\"name\":\"alice\",\"about\":\"bio\"\x7d", []⟩ = "alice bio" ∨
     extract_text (fun m => m) ⟨"i", "p", 0, .metadata,
        "\x7b\"name\":\"alice\",\"about\":\"bio\"\x7d", []⟩ = "bio alice") :=
  ⟨extract_text_spec_amended.1 _ _ (Or.inl rfl),
   extract_text_spec_amended.2.1 _ _ (by decide) (by decide) (by decide),
   extract_text_spec_amended.2.2.2 _ (fun m => List.Perm.refl m)⟩

/-- C7: the reconciliation delete-by-query built for a replaceable
event targets the read alias and matches exactly the documents whose
pubkey equals the event's author, whose kind equals the event's kind,
and whose created_at is strictly earlier than the event's created_at;
a document with equal created_at is never matched. -/
theorem reconcile_delete_by_query_strictly_older :
    (∀ (ev : Event) (doc : Document),
        query_matches (reconcile_query ev) doc = true ↔
          (doc.event.pubkey = ev.pubkey ∧ doc.event.kind.as_u32 = ev.kind.as_u32 ∧
           doc.event.created_at < ev.created_at)) ∧
    (∀ (ev : Event) (doc : Document),
        doc.event.created_at = ev.created_at →
        query_matches (reconcile_query ev) doc = false) ∧
    (∀ (pfx alias_name nm : String) (ev : Event) (now : Int)
        (iter : List (String × String) → List (String × String)) (r r2 : StoreResponse),
        index_name_for_event pfx ev = .ok nm →
        can_exist nm now 7 1 = .ok true →
        is_replaceable_event ev = true →
        (handle_update pfx alias_name ev now iter (.ok r) (.ok r2)).2 =
          [StoreAction.indexDoc nm ev.id (build_document iter ev),
           StoreAction.deleteByQuery alias_name (reconcile_query ev)]) := by
  refine ⟨?_, ?_, ?_⟩
  · intro ev doc
    unfold query_matches reconcile_query
    simp [Bool.and_eq_true, and_assoc]
  · intro ev doc h
    unfold query_matches reconcile_query
    simp [h]
  · intro pfx alias_name nm ev now iter r r2 hname hce hrep
    unfold handle_update
    rw [hname]
    dsimp only
    rw [hce]
    simp only [Except.toOption, Option.getD_some, Bool.not_true, Bool.false_eq_true,
      if_false, hrep, if_true]
    cases hb : r2.success <;> simp [hb]

/-- Witness for C7: the strict-older equivalence and the equal-timestamp
exclusion at concrete documents, and the issued store actions of a
concrete replaceable upsert. -/
theorem reconcile_delete_by_query_strictly_older_witness :
    (query_matches (reconcile_query ⟨"i", "p", 100, .metadata, "", []⟩)
        ⟨⟨"j", "p", 50, .metadata, "", []⟩, "", []⟩ = true ↔
      (("p" : String) = "p" ∧ Kind.metadata.as_u32 = Kind.metadata.as_u32 ∧
        (50 : Int) < 100)) ∧
    query_matches (reconcile_query ⟨"i", "p", 100, .metadata, "", []⟩)
        ⟨⟨"j", "q", 100, .metadata, "", []⟩, "", []⟩ = false ∧
    (handle_update "nostr" "nostr" ⟨"i", "p", 1679270400, .metadata, "", []⟩
        1679270400 (fun m => m) (.ok ⟨true⟩) (.ok ⟨true⟩)).2 =
      [StoreAction.indexDoc "nostr-2023.03.20" "i"
         (build_document (fun m => m) ⟨"i", "p", 1679270400, .metadata, "", []⟩),
       StoreAction.deleteByQuery "nostr"
         (reconcile_query ⟨"i", "p", 1679270400, .metadata, "", []⟩)] :=
  ⟨reconcile_delete_by_query_strictly_older.1 _ _,
   reconcile_delete_by_query_strictly_older.2.1 _ _ (by decide),
   reconcile_delete_by_query_strictly_older.2.2 "nostr" "nostr" "nostr-2023.03.20" _ _ _ _ _
     (by decide) (by decide) (by decide)⟩

/-- C10: for a replaceable event that passes the retention check, the
reconciliation delete-by-query is issued even when the step-3 document
write reported a non-success store response; the trace contains both
the write and the delete-by-query whatever the reconciliation's own
outcome. -/
theorem reconcile_not_conditioned_on_write :
    ∀ (pfx alias_name nm : String) (ev : Event) (now : Int)
      (iter : List (String × String) → List (String × String))
      (dbqResp : Except String StoreResponse),
      index_name_for_event pfx ev = .ok nm →
      can_exist nm now 7 1 = .ok true →
      is_replaceable_event ev = true →
      (handle_update pfx alias_name ev now iter (.ok ⟨false⟩) dbqResp).2 =
        [StoreAction.indexDoc nm ev.id (build_document iter ev),
         StoreAction.deleteByQuery alias_name (reconcile_query ev)] := by
  intro pfx alias_name nm ev now iter dbqResp hname hce hrep
  unfold handle_update
  rw [hname]
  dsimp only
  rw [hce]
  simp only [Except.toOption, Option.getD_some, Bool.not_true, Bool.false_eq_true,
    if_false, hrep, if_true]
  cases dbqResp with
  | error e => rfl
  | ok r2 => cases hb : r2.success <;> simp [hb]

/-- Witness for C10: a concrete replaceable event whose write response
is a failure still issues the delete-by-query. -/
theorem reconcile_not_conditioned_on_write_witness :
    (handle_update "nostr" "nostr" ⟨"i", "p", 1679270400, .metadata, "", []⟩
        1679270400 (fun m => m) (.ok ⟨false⟩) (.ok ⟨true⟩)).2 =
      [StoreAction.indexDoc "nostr-2023.03.20" "i"
         (build_document (fun m => m) ⟨"i", "p", 1679270400, .metadata, "", []⟩),
       StoreAction.deleteByQuery "nostr"
         (reconcile_query ⟨"i", "p", 1679270400, .metadata, "", []⟩)] :=
  reconcile_not_conditioned_on_write "nostr" "nostr" "nostr-2023.03.20" _ _ _ _
    (by decide) (by decide) (by decide)

/-- C3 counterexample: a non-success response to the step-4
reconciliation delete-by-query makes handle_update return an error
(which the consumer loop propagates with the question-mark operator),
contradicting the claim that a reconciliation store failure never
propagates out of handle_update. -/
theorem handle_update_reconcile_error_counterexample :
    (handle_update "nostr" "nostr" ⟨"i", "p", 1679270400, .metadata, "", []⟩
        1679270400 (fun m => m) (.ok ⟨true⟩) (.ok ⟨false⟩)).1 =
      .error "failed to fetch" := by
  decide

/-- C3 (amended): a non-success store response to the step-3 document
write is only logged and the pipeline continues; a non-success
response to the step-4 reconciliation does not roll back step 3 (the
write action stays issued and is never retracted), but handle_update
then returns an error, which the consumer loop propagates. -/
theorem handle_update_error_isolation :
    (∀ (pfx alias_name nm : String) (ev : Event) (now : Int)
        (iter : List (String × String) → List (String × String))
        (dbqResp : Except String StoreResponse),
        index_name_for_event pfx ev = .ok nm →
        can_exist nm now 7 1 = .ok true →
        is_replaceable_event ev = false →
        handle_update pfx alias_name ev now iter (.ok ⟨false⟩) dbqResp =
          (.ok (), [StoreAction.indexDoc nm ev.id (build_document iter ev)])) ∧
    (∀ (pfx alias_name nm : String) (ev : Event) (now : Int)
        (iter : List (String × String) → List (String × String)) (r2 : StoreResponse),
        index_name_for_event pfx ev = .ok nm →
        can_exist nm now 7 1 = .ok true →
        is_replaceable_event ev = true →
        r2.success = false →
        handle_update pfx alias_name ev now iter (.ok ⟨true⟩) (.ok r2) =
          (.error "failed to fetch",
           [StoreAction.indexDoc nm ev.id (build_document iter ev),
            StoreAction.deleteByQuery alias_name (reconcile_query ev)])) := by
  constructor
  · intro pfx alias_name nm ev now iter dbqResp hname hce hrep
    unfold handle_update
    rw [hname]
    dsimp only
    rw [hce]
    simp [Except.toOption, hrep]
  · intro pfx alias_name nm ev now iter r2 hname hce hrep hr2
    unfold handle_update
    rw [hname]
    dsimp only
    rw [hce]
    simp [Except.toOption, hrep, hr2]

/-- Witness for C3 (amended): both conjuncts at concrete events — a
plain text note with a failed write continues, and a profile-metadata
event with a failed reconciliation keeps its write issued while the
function reports the error. -/
theorem handle_update_error_isolation_witness :
    handle_update "nostr" "nostr" ⟨"i", "p", 1679270400, .textNote, "hi", []⟩
        1679270400 (fun m => m) (.ok ⟨false⟩) (.ok ⟨true⟩) =
      (.ok (), [StoreAction.indexDoc "nostr-2023.03.20" "i"
        (build_document (fun m => m) ⟨"i", "p", 1679270400, .textNote, "hi", []⟩)]) ∧
    handle_update "nostr" "nostr" ⟨"i", "p", 1679270400, .metadata, "", []⟩
        1679270400 (fun m => m) (.ok ⟨true⟩) (.ok ⟨false⟩) =
      (.error "failed to fetch",
       [StoreAction.indexDoc "nostr-2023.03.20" "i"
          (build_document (fun m => m) ⟨"i", "p", 1679270400, .metadata, "", []⟩),
        StoreAction.deleteByQuery "nostr"
          (reconcile_query ⟨"i", "p", 1679270400, .metadata, "", []⟩)]) :=
  ⟨handle_update_error_isolation.1 "nostr" "nostr" "nostr-2023.03.20" _ _ _ _
     (by decide) (by decide) (by decide),
   handle_update_error_isolation.2 "nostr" "nostr" "nostr-2023.03.20" _ _ _ _
     (by decide) (by decide) (by decide) (by decide)⟩

/-- C4: delete_event with a claimed author different from the stored
event's pubkey performs no store deletion and reports the
unauthorized error; with a matching author it deletes exactly the one
document, from the specific physical partition reported by the search
hit, and reports success. -/
theorem delete_event_authorization :
    (∀ (s : SearchOutcome) (dr : Except String StoreResponse) (id pk : String)
        (hit : Hit) (rest : List Hit) (ev : Event),
        s.success = true → s.hits = some (hit :: rest) →
        hit.source_event = some ev → ev.pubkey ≠ pk →
        delete_event (.ok s) dr id pk = (.error (.unauthorized pk ev.pubkey), [])) ∧
    (∀ (s : SearchOutcome) (id pk : String) (hit : Hit) (rest : List Hit)
        (ev : Event) (ix : String),
        s.success = true → s.hits = some (hit :: rest) →
        hit.source_event = some ev → ev.pubkey = pk → hit.index = some ix →
        delete_event (.ok s) (.ok ⟨true⟩) id pk =
          (.ok (), [DeleteAction.deleteDoc ix id])) := by
  constructor
  · intro s dr id pk hit rest ev hs hh hsrc hne
    unfold delete_event
    dsimp only
    rw [hs, hh]
    simp only [Bool.not_true, Bool.false_eq_true, if_false, List.head?_cons]
    rw [hsrc]
    dsimp only
    rw [if_pos (Ne.symm hne)]
  · intro s id pk hit rest ev ix hs hh hsrc heq hix
    unfold delete_event
    dsimp only
    rw [hs, hh]
    simp only [Bool.not_true, Bool.false_eq_true, if_false, List.head?_cons]
    rw [hsrc]
    dsimp only
    rw [if_neg (fun h => h heq.symm)]
    rw [hix]

/-- Witness for C4: a stored event authored by alice is not deleted
when mallory claims it (unauthorized), and is deleted from the hit's
partition when alice claims it. -/
theorem delete_event_authorization_witness :
    delete_event
        (.ok ⟨true, some [⟨some ⟨"t", "alice", 5, .textNote, "c", []⟩,
          some "nostr-2023.01.01"⟩]⟩)
        (.ok ⟨true⟩) "t" "mallory" = (.error (.unauthorized "mallory" "alice"), []) ∧
    delete_event
        (.ok ⟨true, some [⟨some ⟨"t", "alice", 5, .textNote, "c", []⟩,
          some "nostr-2023.01.01"⟩]⟩)
        (.ok ⟨true⟩) "t" "alice" = (.ok (), [DeleteAction.deleteDoc "nostr-2023.01.01" "t"]) :=
  ⟨delete_event_authorization.1 _ _ "t" "mallory" _ [] _ rfl rfl rfl (by decide),
   delete_event_authorization.2 _ "t" "alice" _ [] _ "nostr-2023.01.01" rfl rfl rfl rfl rfl⟩


/-- The deletion fold calls delete_event on every event reference in
order with the given claimed author and per-id store responses,
whatever the individual outcomes are. -/
theorem deletion_fold (pk : String) (sr : String → Except String SearchOutcome)
    (dr : String → Except String StoreResponse) (tags : List Tag)
    (acc : List DeletionAttempt) :
    tags.foldl
      (fun acc t =>
        match t with
        | .event e _ _ =>
          acc ++ [⟨e, pk, (delete_event (sr e) (dr e) e pk).1,
            (delete_event (sr e) (dr e) e pk).2⟩]
        | _ => acc)
      acc =
      acc ++ (eventRefIds tags).map (fun i =>
        (⟨i, pk, (delete_event (sr i) (dr i) i pk).1,
          (delete_event (sr i) (dr i) i pk).2⟩ : DeletionAttempt)) := by
  induction tags generalizing acc with
  | nil => simp [eventRefIds]
  | cons t ts ih =>
    cases t with
    | event e r mk =>
      rw [List.foldl_cons, ih]
      simp [eventRefIds, List.filterMap_cons]
    | generic v =>
      rw [List.foldl_cons, ih]
      simp [eventRefIds, List.filterMap_cons]

/-- C8: handle_deletion_event calls delete_event for every
event-reference tag, in order, passing the deletion event's own
pubkey as the claimed author, regardless of the outcomes of earlier
references, and always returns ok; in particular a request with three
references whose second lookup fails still processes the first and
the third. -/
theorem handle_deletion_event_all_refs :
    (∀ (e : Event) (sr : String → Except String SearchOutcome)
        (dr : String → Except String StoreResponse),
        handle_deletion_event e sr dr =
          (.ok (), (eventRefIds e.tags).map
            (fun i => (⟨i, e.pubkey, (delete_event (sr i) (dr i) i e.pubkey).1,
              (delete_event (sr i) (dr i) i e.pubkey).2⟩ : DeletionAttempt)))) ∧
    handle_deletion_event
        ⟨"d", "alice", 0, .eventDeletion, "",
          [Tag.event "a" none none, Tag.event "b" none none, Tag.event "c" none none]⟩
        (fun i => if i = "b" then .ok ⟨true, some []⟩
          else .ok ⟨true, some [⟨some ⟨i, "alice", 5, .textNote, "", []⟩,
            some "nostr-2023.01.01"⟩]⟩)
        (fun _ => .ok ⟨true⟩) =
      (.ok (),
       [⟨"a", "alice", .ok (), [DeleteAction.deleteDoc "nostr-2023.01.01" "a"]⟩,
        ⟨"b", "alice", .error (.notFound "b"), []⟩,
        ⟨"c", "alice", .ok (), [DeleteAction.deleteDoc "nostr-2023.01.01" "c"]⟩]) := by
  constructor
  · intro e sr dr
    unfold handle_deletion_event
    rw [deletion_fold]
    simp
  · decide

end Searchnos
